import Mathlib

/-!
Shallow embedding of the rtracy trace-replay server (src/main.rs, src/server.rs,
src/structs.rs): the string interning performed while loading the source-location
table, the byte-level event codec, the per-connection streaming state machine and
the query dispatcher, together with proofs of the specification's claims.
-/

/-- The number of values of a 64-bit unsigned integer; `u64` arithmetic in the
source wraps modulo this value. -/
def u64Size : Nat := 2 ^ 64

/-- The string table (`HashMap<u64, String>` in main.rs), modelled as an
association list where the most recent binding for a key shadows older ones,
matching `HashMap::insert` overwrite semantics with respect to lookup. -/
abbrev StrMap := List (Nat × String)

/-- The `strings.get(&k)` lookup on the modelled map. -/
def lookupS : StrMap → Nat → Option String
  | [], _ => none
  | (k', v) :: m, k => if k' = k then some v else lookupS m k

/-- The `strings.insert(k, v)` operation on the modelled map. -/
def insertS (m : StrMap) (k : Nat) (v : String) : StrMap := (k, v) :: m

/-- `U32SizeString::get_hash` (structs.rs lines 30-39): the empty string hashes
to 0, any other string to its `DefaultHasher` value, which the embedding keeps
abstract as the parameter `hash`. -/
def getHash (hash : String → Nat) (s : String) : Nat :=
  if s.length = 0 then 0 else hash s

/-- The probing loop of main.rs lines 81-83:
`while strings.get(&h).is_some_and(|t| t != &s) { h += 1 }`.
The `u64` increment wraps modulo `u64Size`.  `fuel` bounds the number of probes;
callers pass `m.length + 1`, which always suffices because the map has at most
`m.length` occupied slots (proved below), so the fuel-exhausted branch is never
reached under the theorems' hypotheses. -/
def probe (m : StrMap) (s : String) : Nat → Nat → Nat
  | 0, h => h
  | fuel + 1, h =>
    match lookupS m h with
    | none => h
    | some t => if t = s then h else probe m s fuel ((h + 1) % u64Size)

/-- One string-interning step of main.rs lines 80-84: probe forward from the
content hash, then insert the string at the resulting identifier. -/
def intern (hash : String → Nat) (m : StrMap) (s : String) : Nat × StrMap :=
  let k := probe m s (m.length + 1) (getHash hash s)
  (k, insertS m k s)

/-- `UTracySourceLocation` (structs.rs lines 91-98): the on-disk source-location
record with its three variable-length strings. -/
structure UTracySourceLocation where
  name : String
  function : String
  file : String
  line : Nat
  color : List Nat
deriving DecidableEq

/-- `SourceLocation` (structs.rs lines 100-109): the resident record, strings
replaced by their interned 64-bit identifiers. -/
structure SourceLocation where
  name : Nat
  function : Nat
  file : Nat
  line : Nat
  color_r : Nat
  color_g : Nat
  color_b : Nat
deriving DecidableEq

/-- The initial string table of main.rs lines 74-75: the empty string is bound
to identifier 0 before any location is processed. -/
def initialStrings : StrMap := [(0, "")]

/-- The location-loading loop of main.rs lines 77-107: for each record intern
its name, then its function, then its file string, and append the resident
`SourceLocation` built from the three identifiers, the line and the first three
color bytes.  Besides the final string map and the location table, the model
returns the assignment trace: every interned string paired with the identifier
it received, in interning order. -/
def loadLocations (hash : String → Nat) :
    StrMap → List UTracySourceLocation →
    StrMap × List SourceLocation × List (String × Nat)
  | m, [] => (m, [], [])
  | m, loc :: rest =>
    let r1 := intern hash m loc.name
    let r2 := intern hash r1.2 loc.function
    let r3 := intern hash r2.2 loc.file
    let r4 := loadLocations hash r3.2 rest
    (r4.1,
     ⟨r1.1, r2.1, r3.1, loc.line,
      loc.color.getD 0 0, loc.color.getD 1 0, loc.color.getD 2 0⟩ :: r4.2.1,
     (loc.name, r1.1) :: (loc.function, r2.1) :: (loc.file, r3.1) :: r4.2.2)

/-- A slot `k` is acceptable for string `s`: the probing loop stops there
because the slot is either free or already bound to `s` itself. -/
def Good (m : StrMap) (s : String) (k : Nat) : Prop :=
  lookupS m k = none ∨ lookupS m k = some s

instance goodDecidable (m : StrMap) (s : String) (k : Nat) : Decidable (Good m s k) :=
  inferInstanceAs (Decidable (_ ∨ _))

/-- `EventType` (structs.rs lines 111-117): the four trace event discriminants. -/
inductive EventType where
  | begin
  | end_
  | color
  | mark
deriving DecidableEq

/-- `EventType::decode` (structs.rs lines 121-133): a single byte, accepted only
at the values 15 (Begin), 17 (End), 62 (Color) and 64 (Mark); any other value is
an `UnexpectedVariant` decode error, modelled as `none`. -/
def decodeEventType (b : Nat) : Option EventType :=
  if b = 15 then some .begin
  else if b = 17 then some .end_
  else if b = 62 then some .color
  else if b = 64 then some .mark
  else none

/-- A decoded `UTracyEvent` (structs.rs lines 178-183).  The payload union
`Event` is always decoded with the `EventZoneBegin` shape (structs.rs lines
172-176): two little-endian `u32` fields followed by a `u64` timestamp; the
per-variant field meanings are reinterpretations of this one shape.
`fieldA` is `thread_id` (or `name` for frame marks), `fieldB` is
`source_location` (or padding, or the four color bytes). -/
structure RawEvent where
  etype : EventType
  fieldA : Nat
  fieldB : Nat
  timestamp : Nat
deriving DecidableEq

/-- Byte `i` of the little-endian representation of the second payload `u32`:
the union reinterpretation `EventZoneColor.color[i]` (structs.rs lines 149-154)
of the `source_location` field bytes. -/
def byteAt (i n : Nat) : Nat := n / 256 ^ i % 256

/-- The outbound response records built in server.rs (the `Network*` structs of
structs.rs encoded into the outbound buffer), at record granularity. -/
inductive NetRecord where
  | threadContext (threadId : Nat)
  | zoneBegin (timestamp sourceLocation : Nat)
  | zoneEnd (timestamp : Nat)
  | zoneColor (r g b : Nat)
  | frameMark (timestamp name : Nat)
  | stringData (pointer : Nat) (s : String)
  | threadName (pointer : Nat) (s : String)
  | sourceLocationMsg (loc : SourceLocation)
  | ackSymbolCode
  | ackSourceCode (id : Nat)
  | ackNoop
deriving DecidableEq

/-- The per-connection mutable state of `ServerContext` (server.rs lines 14-26)
used by the streaming loop: `last_thread_id`, the running `timestamp` baseline,
and the local `frame` counter of `process_client`. -/
structure SState where
  lastThreadId : Nat
  timestamp : Nat
  frame : Nat
deriving DecidableEq

/-- The initial per-connection state (server.rs lines 241-253 set
`last_thread_id: 0, timestamp: 0`; `process_client` starts `frame` at 0). -/
def initState : SState := ⟨0, 0, 0⟩

/-- Wrapping `u64` subtraction `a - b`, as release-mode Rust computes
`event.timestamp - self.timestamp` (server.rs lines 47 and 58). -/
def wsub (a b : Nat) : Nat := (a + u64Size - b % u64Size) % u64Size

/-- `ServerContext::check_thread` (server.rs lines 193-202): when the event's
thread id differs from `last_thread_id`, store the new id, reset the timestamp
baseline to 0, and emit a `ThreadContext` record. -/
def checkThread (s : SState) (tid : Nat) : SState × List NetRecord :=
  if s.lastThreadId ≠ tid then
    ({ s with lastThreadId := tid, timestamp := 0 }, [.threadContext tid])
  else (s, [])

/-- The result of processing one event in the streaming loop: the new state,
the records appended to the outbound buffer, and whether the loop breaks
(the `limit_frames` check of server.rs lines 83-85). -/
structure StepResult where
  state : SState
  out : List NetRecord
  brk : Bool
deriving DecidableEq

/-- One iteration of the event match in `ServerContext::process_client`
(server.rs lines 40-87): zone begin/end/color are emitted (after the thread
check, with delta-encoded timestamps) only when `frame > skip_frames`; a frame
mark first increments `frame`, is emitted when still `frame > skip_frames`, and
breaks the loop once `frame > skip_frames + limit_frames`. -/
def processEvent (skip limit : Nat) (s : SState) (e : RawEvent) : StepResult :=
  match e.etype with
  | .begin =>
    if s.frame > skip then
      let c := checkThread s e.fieldA
      ⟨{ c.1 with timestamp := e.timestamp },
       c.2 ++ [.zoneBegin (wsub e.timestamp c.1.timestamp) e.fieldB], false⟩
    else ⟨s, [], false⟩
  | .end_ =>
    if s.frame > skip then
      let c := checkThread s e.fieldA
      ⟨{ c.1 with timestamp := e.timestamp },
       c.2 ++ [.zoneEnd (wsub e.timestamp c.1.timestamp)], false⟩
    else ⟨s, [], false⟩
  | .color =>
    if s.frame > skip then
      let c := checkThread s e.fieldA
      ⟨c.1,
       c.2 ++ [.zoneColor (byteAt 0 e.fieldB) (byteAt 1 e.fieldB) (byteAt 2 e.fieldB)],
       false⟩
    else ⟨s, [], false⟩
  | .mark =>
    ⟨{ s with frame := s.frame + 1 },
     if s.frame + 1 > skip then [.frameMark e.timestamp 0] else [],
     decide (s.frame + 1 > skip + limit)⟩

/-- The outcome of a full streaming run: the emitted records, the final state,
and the events left unprocessed because the loop broke early. -/
structure RunResult where
  out : List NetRecord
  state : SState
  leftover : List RawEvent
deriving DecidableEq

/-- The streaming loop of `ServerContext::process_client` (server.rs lines
33-95) over an already-decoded event list: process events in order, stopping
early when a frame mark trips the `skip + limit` bound. -/
def streamRunFull (skip limit : Nat) : SState → List RawEvent → RunResult
  | s, [] => ⟨[], s, []⟩
  | s, e :: rest =>
    let r := processEvent skip limit s e
    if r.brk then ⟨r.out, r.state, rest⟩
    else
      let rr := streamRunFull skip limit r.state rest
      ⟨r.out ++ rr.out, rr.state, rr.leftover⟩

/-- The number of frame-mark events in a list. -/
def countMarks : List RawEvent → Nat
  | [] => 0
  | e :: rest => (if e.etype = .mark then 1 else 0) + countMarks rest

/-- Recognizer for thread-context-switch records. -/
def isThreadContext : NetRecord → Bool
  | .threadContext _ => true
  | _ => false

/-- The number of thread-context-switch records in an output list. -/
def countTC (l : List NetRecord) : Nat := l.countP isThreadContext

/-- The zone events (begin/end/color) that the streaming loop actually emits:
those reached before the limit break whose current frame count exceeds
`skip`.  The `frame` argument is the number of frame marks counted so far. -/
def emittedZones (skip limit : Nat) : Nat → List RawEvent → List RawEvent
  | _, [] => []
  | frame, e :: rest =>
    if e.etype = .mark then
      if frame + 1 > skip + limit then []
      else emittedZones skip limit (frame + 1) rest
    else
      (if frame > skip then [e] else []) ++ emittedZones skip limit frame rest

/-- The thread ids of the emitted zone events, in emission order. -/
def zoneTids (skip limit frame : Nat) (events : List RawEvent) : List Nat :=
  (emittedZones skip limit frame events).map (fun e => e.fieldA)

/-- The number of maximal runs of consecutive equal elements in a list. -/
def numRuns : List Nat → Nat
  | [] => 0
  | [_] => 1
  | a :: b :: t => (if a = b then 0 else 1) + numRuns (b :: t)

/-- The number of positions at which an element differs from its predecessor,
the first element being compared against `last`. -/
def numSwitches : Nat → List Nat → Nat
  | _, [] => 0
  | last, a :: t => (if a = last then 0 else 1) + numSwitches a t

/-- Fixed-width little-endian integer decoding (the bincode configuration of
structs.rs line 14: little-endian, fixed-width).  Reads `n` bytes and returns
the value together with the remaining bytes; fails on a truncated input. -/
def readLE : Nat → List Nat → Option (Nat × List Nat)
  | 0, bs => some (0, bs)
  | _ + 1, [] => none
  | n + 1, b :: bs =>
    match readLE n bs with
    | none => none
    | some (v, rest) => some (b + 256 * v, rest)

/-- Decoding one `UTracyEvent` (structs.rs lines 178-183) from the event
stream: one discriminant byte (`EventType::decode`), 7 padding bytes, then the
16-byte payload decoded with the `EventZoneBegin` shape (`u32`, `u32`, `u64`)
that the `Event` union always uses (structs.rs lines 172-176). -/
def decodeUTracyEvent (bs : List Nat) : Option (RawEvent × List Nat) :=
  (readLE 1 bs).bind fun p1 =>
  (decodeEventType p1.1).bind fun et =>
  (readLE 7 p1.2).bind fun p2 =>
  (readLE 4 p2.2).bind fun p3 =>
  (readLE 4 p3.2).bind fun p4 =>
  (readLE 8 p4.2).bind fun p5 =>
  some (⟨et, p3.1, p4.1, p5.1⟩, p5.2)

/-- Iterated event decoding: exactly `n` consecutive `UTracyEvent` records. -/
def decodeEventsN : Nat → List Nat → Option (List RawEvent × List Nat)
  | 0, bs => some ([], bs)
  | n + 1, bs =>
    (decodeUTracyEvent bs).bind fun p =>
    (decodeEventsN n p.2).bind fun q =>
    some (p.1 :: q.1, q.2)

/-- Greedy event decoding: the maximal prefix of events that decode
successfully; decoding stops at the first failure.  `fuel` bounds the
recursion; each successful decode consumes 24 bytes, so `bs.length + 1` always
suffices. -/
def decodeGreedyF : Nat → List Nat → List RawEvent
  | 0, _ => []
  | fuel + 1, bs =>
    match decodeUTracyEvent bs with
    | none => []
    | some (e, rest) => e :: decodeGreedyF fuel rest

/-- The maximal successfully-decodable event prefix of a byte stream. -/
def decodeGreedy (bs : List Nat) : List RawEvent :=
  decodeGreedyF (bs.length + 1) bs

/-- The streaming loop of `ServerContext::process_client` (server.rs lines
33-95) at byte level: decode one `UTracyEvent` from the private event cursor;
ANY decode failure (end of data, truncated record, or bad discriminant) takes
the `is_err` branch of lines 35-38, which prints "Reached end of file" and
breaks the loop.  Returns the emitted records, the final state and the
unconsumed bytes.  `fuel` bounds the recursion; `bs.length + 1` suffices. -/
def processClientBytesF (skip limit : Nat) :
    Nat → SState → List Nat → List NetRecord × SState × List Nat
  | 0, s, bs => ([], s, bs)
  | fuel + 1, s, bs =>
    match decodeUTracyEvent bs with
    | none => ([], s, bs)
    | some (e, rest) =>
      let r := processEvent skip limit s e
      if r.brk then (r.out, r.state, rest)
      else
        let rr := processClientBytesF skip limit fuel r.state rest
        (r.out ++ rr.1, rr.2.1, rr.2.2)

/-- The byte-level streaming loop with sufficient fuel. -/
def processClientBytes (skip limit : Nat) (s : SState) (bs : List Nat) :
    List NetRecord × SState × List Nat :=
  processClientBytesF skip limit (bs.length + 1) s bs

/-- The `Result<(), String>` value `process_client` returns as far as event
decoding is concerned (server.rs lines 29-106): the streaming loop never turns
a decode failure into an `Err`; it breaks and the function completes with `Ok`.
(I/O failures of the socket itself are outside this embedding.)  The payload
records the emitted stream for inspection. -/
def processClientModel (skip limit : Nat) (s : SState) (bs : List Nat) :
    Except String (List NetRecord) :=
  .ok (processClientBytes skip limit s bs).1

/-- `ServerQueryType` (structs.rs lines 288-307): the inbound query kinds. -/
inductive ServerQueryType where
  | terminate
  | string
  | threadString
  | sourceLocation
  | plotName
  | frameName
  | parameter
  | fiberName
  | disconnect
  | callstackFrame
  | externalName
  | symbol
  | symbolCode
  | sourceCode
  | dataTransfer
  | dataTransferPart
deriving DecidableEq

/-- The outcome of dispatching one query in `ServerContext::process_query`
(server.rs lines 108-169): either the loop is told to stop (a terminate query,
`return Ok(false)`), or it continues after emitting some response records. -/
inductive QueryOutcome where
  | stop
  | reply (recs : List NetRecord)
deriving DecidableEq

/-- The dispatch table of `ServerContext::process_query` (server.rs lines
122-165) for one decoded query.  The source-location arm calls
`self.locations.get(request.pointer as usize).unwrap()`, which panics on an
out-of-range index; the panic is modelled as `Except.error`.  The string arm
falls back to "Unkn" (`unwrap_or`), the thread-name arm always answers "Main",
and the source-code arm truncates the pointer to `u32`. -/
def dispatchQuery (locations : List SourceLocation) (strings : StrMap)
    (qtype : ServerQueryType) (pointer : Nat) :
    Except String QueryOutcome :=
  match qtype with
  | .terminate => .ok .stop
  | .string =>
    .ok (.reply [.stringData pointer ((lookupS strings pointer).getD "Unkn")])
  | .threadString => .ok (.reply [.threadName pointer "Main"])
  | .sourceLocation =>
    match locations[pointer]? with
    | some l => .ok (.reply [.sourceLocationMsg l])
    | none => .error "called Option::unwrap() on a None value"
  | .symbolCode => .ok (.reply [.ackSymbolCode])
  | .sourceCode => .ok (.reply [.ackSourceCode (pointer % 2 ^ 32)])
  | .dataTransfer => .ok (.reply [.ackNoop])
  | .dataTransferPart => .ok (.reply [.ackNoop])
  | _ => .ok (.reply [])

/-- What the server writes to one client at record granularity: the handshake
status byte, the `NetworkHeader` record, and the streamed response records. -/
inductive WireOut where
  | status (b : Nat)
  | header
  | record (r : NetRecord)
deriving DecidableEq

/-- `handle_client` (server.rs lines 205-258) for a client that sends no
queries: check the 8-byte identification token against "TracyPrf" (error and
close on mismatch, nothing written), check the protocol version against 76
(write a `HandshakeProtocolMismatch` status byte, value 2, and error on
mismatch), otherwise write the `HandshakeWelcome` status byte (value 1), the
`NetworkHeader` record, and then run the streaming loop from the initial
per-connection state. -/
def handleClientModel (skip limit : Nat) (clientName : String) (version : Nat)
    (events : List RawEvent) : Except String (List WireOut) :=
  if clientName ≠ "TracyPrf" then
    .error "Invalid client, expected TracyPrf"
  else if version ≠ 76 then
    .error "Invalid client version, expected 76"
  else
    .ok (.status 1 :: .header ::
      (streamRunFull skip limit initState events).out.map .record)

/-- Invariant tying the assignment trace to the final string map `M`: every
interned string is bound in `M` at the identifier it was assigned, that
identifier lies on the probe path from the string's content hash, and every
earlier slot of the path is permanently occupied by a different string. -/
def TraceInv (hash : String → Nat) (M : StrMap) (tr : List (String × Nat)) : Prop :=
  ∀ p ∈ tr, ∃ j, p.2 = (getHash hash p.1 + j) % u64Size
    ∧ lookupS M p.2 = some p.1
    ∧ ∀ i, i < j → ¬ Good M p.1 ((getHash hash p.1 + i) % u64Size)

/-! ## Lemmas about the string interner -/

lemma getHash_lt (hash : String → Nat) (hb : ∀ t, hash t < u64Size) (s : String) :
    getHash hash s < u64Size := by
  unfold getHash
  split
  · norm_num [u64Size]
  · exact hb s

lemma u64Size_pos : 0 < u64Size := by norm_num [u64Size]

lemma mem_keys_of_lookup_ne_none :
    ∀ (m : StrMap) (k : Nat), lookupS m k ≠ none → k ∈ m.map Prod.fst := by
  intro m k
  induction m with
  | nil => simp [lookupS]
  | cons p m ih =>
    obtain ⟨k', v⟩ := p
    simp only [lookupS, List.map_cons, List.mem_cons]
    by_cases h : k' = k
    · subst h
      exact fun _ => Or.inl rfl
    · intro hn
      rw [if_neg h] at hn
      exact Or.inr (ih hn)

lemma exists_lookup_none (m : StrMap) (h : Nat) (_hh : h < u64Size)
    (hm : m.length < u64Size) :
    ∃ j, j ≤ m.length ∧ lookupS m ((h + j) % u64Size) = none := by
  by_contra hc
  push_neg at hc
  have hinj : ∀ x ∈ List.range (m.length + 1), ∀ y ∈ List.range (m.length + 1),
      (h + x) % u64Size = (h + y) % u64Size → x = y := by
    intro x hx y hy hxy
    rw [List.mem_range] at hx hy
    unfold u64Size at hxy hm
    omega
  have hsub : ∀ z ∈ (List.range (m.length + 1)).map (fun j => (h + j) % u64Size),
      z ∈ m.map Prod.fst := by
    intro z hz
    rw [List.mem_map] at hz
    obtain ⟨j, hj, rfl⟩ := hz
    rw [List.mem_range] at hj
    exact mem_keys_of_lookup_ne_none m _ (hc j (Nat.lt_succ_iff.mp hj))
  have hnd : ((List.range (m.length + 1)).map (fun j => (h + j) % u64Size)).Nodup :=
    (List.nodup_range _).map_on hinj
  have hle := (List.subperm_of_subset hnd fun z hz => hsub z hz).length_le
  simp only [List.length_map, List.length_range] at hle
  omega

lemma least_good (m : StrMap) (s : String) (h : Nat) (hh : h < u64Size)
    (hm : m.length < u64Size) :
    ∃ j, j ≤ m.length ∧ Good m s ((h + j) % u64Size) ∧
      ∀ i, i < j → ¬ Good m s ((h + i) % u64Size) := by
  obtain ⟨j0, hj0, hnone⟩ := exists_lookup_none m h hh hm
  have hex : ∃ j, Good m s ((h + j) % u64Size) := ⟨j0, Or.inl hnone⟩
  exact ⟨Nat.find hex, le_trans (Nat.find_min' hex (Or.inl hnone)) hj0,
    Nat.find_spec hex, fun i hi => Nat.find_min hex hi⟩

lemma probe_eq (m : StrMap) (s : String) :
    ∀ (j fuel h : Nat), h < u64Size → j < fuel →
      Good m s ((h + j) % u64Size) →
      (∀ i, i < j → ¬ Good m s ((h + i) % u64Size)) →
      probe m s fuel h = (h + j) % u64Size := by
  intro j
  induction j with
  | zero =>
    intro fuel h hh hf hg _
    cases fuel with
    | zero => omega
    | succ fuel =>
      have hmod : (h + 0) % u64Size = h := by
        rw [Nat.add_zero]
        exact Nat.mod_eq_of_lt hh
      have hgh : Good m s ((h + 0) % u64Size) := hg
      rw [hmod] at hgh
      have hres : probe m s (fuel + 1) h = h := by
        rcases hgh with hnone | hsome
        · simp [probe, hnone]
        · simp [probe, hsome]
      show probe m s (fuel + 1) h = (h + 0) % u64Size
      rw [hmod]
      exact hres
  | succ jj ih =>
    intro fuel h hh hf hg hmin
    cases fuel with
    | zero => omega
    | succ fuel =>
      have h0 : ¬ Good m s ((h + 0) % u64Size) := hmin 0 (Nat.succ_pos _)
      rw [Nat.add_zero, Nat.mod_eq_of_lt hh] at h0
      rcases hlk : lookupS m h with _ | t
      · exact absurd (Or.inl hlk) h0
      · have hts : t ≠ s := by
          intro he
          exact h0 (Or.inr (by rw [hlk, he]))
        have hstep : probe m s (fuel + 1) h = probe m s fuel ((h + 1) % u64Size) := by
          simp [probe, hlk, hts]
        have hh' : (h + 1) % u64Size < u64Size := Nat.mod_lt _ u64Size_pos
        have hg' : Good m s (((h + 1) % u64Size + jj) % u64Size) := by
          rw [Nat.mod_add_mod]
          have harr : h + 1 + jj = h + (jj + 1) := by omega
          rw [harr]
          exact hg
        have hmin' : ∀ i, i < jj → ¬ Good m s (((h + 1) % u64Size + i) % u64Size) := by
          intro i hi
          rw [Nat.mod_add_mod]
          have harr : h + 1 + i = h + (i + 1) := by omega
          rw [harr]
          exact hmin (i + 1) (by omega)
        rw [hstep, ih fuel ((h + 1) % u64Size) hh' (by omega) hg' hmin',
          Nat.mod_add_mod]
        congr 1
        omega

lemma not_good_iff (m : StrMap) (s : String) (k : Nat) :
    ¬ Good m s k ↔ ∃ t, lookupS m k = some t ∧ t ≠ s := by
  unfold Good
  rcases h : lookupS m k with _ | t <;> simp [h]

lemma intern_spec (hash : String → Nat) (m : StrMap) (s : String)
    (hh : getHash hash s < u64Size) (hm : m.length < u64Size) :
    ∃ j, (intern hash m s).1 = (getHash hash s + j) % u64Size
      ∧ (∀ i, i < j → ¬ Good m s ((getHash hash s + i) % u64Size))
      ∧ lookupS (intern hash m s).2 (intern hash m s).1 = some s
      ∧ (∀ k v, lookupS m k = some v → lookupS (intern hash m s).2 k = some v)
      ∧ (intern hash m s).2.length = m.length + 1 := by
  obtain ⟨j, hj, hgood, hmin⟩ := least_good m s (getHash hash s) hh hm
  have hp : probe m s (m.length + 1) (getHash hash s) = (getHash hash s + j) % u64Size :=
    probe_eq m s j (m.length + 1) _ hh (by omega) hgood hmin
  refine ⟨j, by simp [intern, hp], hmin, by simp [intern, insertS, lookupS], ?_,
    by simp [intern, insertS]⟩
  intro k v hkv
  simp only [intern, insertS, lookupS]
  by_cases hk : probe m s (m.length + 1) (getHash hash s) = k
  · rw [if_pos hk]
    have hkv' : lookupS m ((getHash hash s + j) % u64Size) = some v := by
      rw [← hp, hk]
      exact hkv
    rcases hgood with hnone | hsome
    · rw [hkv'] at hnone
      exact absurd hnone (by simp)
    · rw [hkv'] at hsome
      injection hsome with hvs
      rw [hvs]
  · rw [if_neg hk]
    exact hkv

lemma good_neg_mono (m M : StrMap) (s : String) (k : Nat)
    (mono : ∀ k' v, lookupS m k' = some v → lookupS M k' = some v) :
    ¬ Good m s k → ¬ Good M s k := by
  rw [not_good_iff, not_good_iff]
  rintro ⟨t, hlk, hts⟩
  exact ⟨t, mono k t hlk, hts⟩

lemma loadLocations_inv (hash : String → Nat) (hb : ∀ t, hash t < u64Size) :
    ∀ (locs : List UTracySourceLocation) (m : StrMap),
      lookupS m 0 = some "" →
      m.length + 3 * locs.length < u64Size →
      lookupS (loadLocations hash m locs).1 0 = some ""
      ∧ (∀ k v, lookupS m k = some v → lookupS (loadLocations hash m locs).1 k = some v)
      ∧ (loadLocations hash m locs).1.length = m.length + 3 * locs.length
      ∧ TraceInv hash (loadLocations hash m locs).1 (loadLocations hash m locs).2.2 := by
  intro locs
  induction locs with
  | nil =>
    intro m hP _
    refine ⟨hP, fun k v hv => hv, by simp [loadLocations], ?_⟩
    intro p hp
    simp [loadLocations] at hp
  | cons loc rest ih =>
    intro m hP hlen
    simp only [List.length_cons] at hlen
    obtain ⟨j1, hj1, hmin1, hlk1, hmono1, hlen1⟩ :=
      intern_spec hash m loc.name (getHash_lt hash hb _) (by omega)
    obtain ⟨j2, hj2, hmin2, hlk2, hmono2, hlen2⟩ :=
      intern_spec hash (intern hash m loc.name).2 loc.function
        (getHash_lt hash hb _) (by omega)
    obtain ⟨j3, hj3, hmin3, hlk3, hmono3, hlen3⟩ :=
      intern_spec hash (intern hash (intern hash m loc.name).2 loc.function).2 loc.file
        (getHash_lt hash hb _) (by omega)
    have hP3 : lookupS
        (intern hash (intern hash (intern hash m loc.name).2 loc.function).2 loc.file).2
        0 = some "" :=
      hmono3 0 "" (hmono2 0 "" (hmono1 0 "" hP))
    obtain ⟨ihP, ihmono, ihlen, ihtr⟩ :=
      ih (intern hash (intern hash (intern hash m loc.name).2 loc.function).2 loc.file).2
        hP3 (by omega)
    have monoAll : ∀ k v, lookupS m k = some v →
        lookupS (loadLocations hash
          (intern hash (intern hash (intern hash m loc.name).2 loc.function).2 loc.file).2
          rest).1 k = some v :=
      fun k v hv => ihmono k v (hmono3 k v (hmono2 k v (hmono1 k v hv)))
    have mono1All : ∀ k v, lookupS (intern hash m loc.name).2 k = some v →
        lookupS (loadLocations hash
          (intern hash (intern hash (intern hash m loc.name).2 loc.function).2 loc.file).2
          rest).1 k = some v :=
      fun k v hv => ihmono k v (hmono3 k v (hmono2 k v hv))
    have mono2All : ∀ k v,
        lookupS (intern hash (intern hash m loc.name).2 loc.function).2 k = some v →
        lookupS (loadLocations hash
          (intern hash (intern hash (intern hash m loc.name).2 loc.function).2 loc.file).2
          rest).1 k = some v :=
      fun k v hv => ihmono k v (hmono3 k v hv)
    refine ⟨ihP, monoAll, ?_, ?_⟩
    · show (loadLocations hash
        (intern hash (intern hash (intern hash m loc.name).2 loc.function).2 loc.file).2
        rest).1.length = m.length + 3 * (rest.length + 1)
      omega
    · intro p hp
      have hp' : p = (loc.name, (intern hash m loc.name).1)
          ∨ p = (loc.function, (intern hash (intern hash m loc.name).2 loc.function).1)
          ∨ p = (loc.file,
              (intern hash (intern hash (intern hash m loc.name).2 loc.function).2
                loc.file).1)
          ∨ p ∈ (loadLocations hash
              (intern hash (intern hash (intern hash m loc.name).2 loc.function).2
                loc.file).2 rest).2.2 := by
        have hp2 : p ∈ (loc.name, (intern hash m loc.name).1)
            :: (loc.function, (intern hash (intern hash m loc.name).2 loc.function).1)
            :: (loc.file,
                (intern hash (intern hash (intern hash m loc.name).2 loc.function).2
                  loc.file).1)
            :: (loadLocations hash
                (intern hash (intern hash (intern hash m loc.name).2 loc.function).2
                  loc.file).2 rest).2.2 := hp
        simpa using hp2
      rcases hp' with rfl | rfl | rfl | hrest
      · exact ⟨j1, hj1, ihmono _ _ (hmono3 _ _ (hmono2 _ _ hlk1)),
          fun i hi => good_neg_mono _ _ _ _ monoAll (hmin1 i hi)⟩
      · exact ⟨j2, hj2, ihmono _ _ (hmono3 _ _ hlk2),
          fun i hi => good_neg_mono _ _ _ _ mono1All (hmin2 i hi)⟩
      · exact ⟨j3, hj3, ihmono _ _ hlk3,
          fun i hi => good_neg_mono _ _ _ _ mono2All (hmin3 i hi)⟩
      · exact ihtr p hrest

/-! ## Claim C1 -/

/-- C1: for every pair of distinct strings interned during a single load of the
location table, the assigned identifiers are distinct (the string table is
injective), and the identifier assigned to the empty string is always 0.
Quantified over the abstract content hash (`DefaultHasher`), which returns
`u64` values. -/
theorem c1_string_table_injective (hash : String → Nat)
    (hb : ∀ t, hash t < u64Size) (locs : List UTracySourceLocation)
    (hlen : 1 + 3 * locs.length < u64Size) :
    (∀ p ∈ (loadLocations hash initialStrings locs).2.2,
      ∀ q ∈ (loadLocations hash initialStrings locs).2.2,
        p.1 ≠ q.1 → p.2 ≠ q.2)
    ∧ ∀ p ∈ (loadLocations hash initialStrings locs).2.2, p.1 = "" → p.2 = 0 := by
  have hP0 : lookupS initialStrings 0 = some "" := by simp [initialStrings, lookupS]
  have hlen0 : initialStrings.length + 3 * locs.length < u64Size := by
    simp only [initialStrings, List.length_singleton]
    omega
  obtain ⟨hP, _, _, htr⟩ := loadLocations_inv hash hb locs initialStrings hP0 hlen0
  constructor
  · intro p hp q hq hne heq
    obtain ⟨j1, _, hlkp, _⟩ := htr p hp
    obtain ⟨j2, _, hlkq, _⟩ := htr q hq
    rw [heq] at hlkp
    rw [hlkp] at hlkq
    injection hlkq with h'
    exact hne h'
  · intro p hp hempty
    obtain ⟨j, hjid, _, hminp⟩ := htr p hp
    have hh0 : getHash hash p.1 = 0 := by simp [getHash, hempty]
    rcases Nat.eq_zero_or_pos j with hj0 | hjpos
    · rw [hj0, hh0] at hjid
      simpa using hjid
    · exfalso
      apply hminp 0 hjpos
      refine Or.inr ?_
      have hidx : (getHash hash p.1 + 0) % u64Size = 0 := by
        rw [hh0]
        simp
      rw [hidx, hempty]
      exact hP

/-- Witness for C1 at a concrete load: hashing constantly to 5, the single
location record (name "a", function "b", file "a") assigns 5 to "a" and 6 to
"b", which are distinct. -/
theorem c1_string_table_injective_witness :
    (1 + 3 * ([⟨"a", "b", "a", 3, [1, 2, 3, 4]⟩] : List UTracySourceLocation).length
      < u64Size)
    ∧ ("a", 5) ∈
        (loadLocations (fun _ => 5) initialStrings
          [⟨"a", "b", "a", 3, [1, 2, 3, 4]⟩]).2.2
    ∧ ("b", 6) ∈
        (loadLocations (fun _ => 5) initialStrings
          [⟨"a", "b", "a", 3, [1, 2, 3, 4]⟩]).2.2
    ∧ ((("a" : String), (5 : Nat)).2 ≠ ((("b" : String), (6 : Nat))).2) := by
  refine ⟨by norm_num [u64Size], by decide, by decide, ?_⟩
  exact (c1_string_table_injective (fun _ => 5) (fun _ => by norm_num [u64Size])
    [⟨"a", "b", "a", 3, [1, 2, 3, 4]⟩] (by norm_num [u64Size])).1
    ("a", 5) (by decide) ("b", 6) (by decide) (by decide)

/-! ## Claim C2 -/

/-- C2: while emission is enabled (`frame > skip_frames`), a zone-begin or
zone-end response record carries its timestamp re-encoded as the wrapping
difference between the event's absolute timestamp and the connection's running
timestamp baseline (the baseline in force after the thread check), after which
the baseline is updated to the event's absolute timestamp; a zone-color
response record carries no timestamp field and the processing of a zone-color
event leaves the baseline exactly as the thread check left it. -/
theorem c2_delta_encoding (skip limit : Nat) (s : SState) (tid loc fb t : Nat)
    (h : s.frame > skip) :
    ((processEvent skip limit s ⟨.begin, tid, loc, t⟩).out
        = (checkThread s tid).2
          ++ [.zoneBegin (wsub t (checkThread s tid).1.timestamp) loc])
    ∧ (processEvent skip limit s ⟨.begin, tid, loc, t⟩).state.timestamp = t
    ∧ ((processEvent skip limit s ⟨.end_, tid, fb, t⟩).out
        = (checkThread s tid).2
          ++ [.zoneEnd (wsub t (checkThread s tid).1.timestamp)])
    ∧ (processEvent skip limit s ⟨.end_, tid, fb, t⟩).state.timestamp = t
    ∧ ((processEvent skip limit s ⟨.color, tid, fb, t⟩).out
        = (checkThread s tid).2
          ++ [.zoneColor (byteAt 0 fb) (byteAt 1 fb) (byteAt 2 fb)])
    ∧ (processEvent skip limit s ⟨.color, tid, fb, t⟩).state.timestamp
        = (checkThread s tid).1.timestamp := by
  refine ⟨?_, ?_, ?_, ?_, ?_, ?_⟩ <;> simp [processEvent, h]

/-- Witness for C2: a concrete state with `frame = 2 > skip = 1` and a concrete
event on the same thread as `last_thread_id`. -/
theorem c2_delta_encoding_witness :
    ((⟨3, 50, 2⟩ : SState).frame > 1)
    ∧ (((processEvent 1 9 ⟨3, 50, 2⟩ ⟨.begin, 3, 7, 100⟩).out
        = (checkThread ⟨3, 50, 2⟩ 3).2
          ++ [.zoneBegin (wsub 100 (checkThread ⟨3, 50, 2⟩ 3).1.timestamp) 7])
    ∧ (processEvent 1 9 ⟨3, 50, 2⟩ ⟨.begin, 3, 7, 100⟩).state.timestamp = 100
    ∧ ((processEvent 1 9 ⟨3, 50, 2⟩ ⟨.end_, 3, 300, 100⟩).out
        = (checkThread ⟨3, 50, 2⟩ 3).2
          ++ [.zoneEnd (wsub 100 (checkThread ⟨3, 50, 2⟩ 3).1.timestamp)])
    ∧ (processEvent 1 9 ⟨3, 50, 2⟩ ⟨.end_, 3, 300, 100⟩).state.timestamp = 100
    ∧ ((processEvent 1 9 ⟨3, 50, 2⟩ ⟨.color, 3, 300, 100⟩).out
        = (checkThread ⟨3, 50, 2⟩ 3).2
          ++ [.zoneColor (byteAt 0 300) (byteAt 1 300) (byteAt 2 300)])
    ∧ (processEvent 1 9 ⟨3, 50, 2⟩ ⟨.color, 3, 300, 100⟩).state.timestamp
        = (checkThread ⟨3, 50, 2⟩ 3).1.timestamp) :=
  ⟨by decide, c2_delta_encoding 1 9 ⟨3, 50, 2⟩ 3 7 300 100 (by decide)⟩

/-! ## Helper lemmas about the streaming step -/

lemma checkThread_frame (s : SState) (tid : Nat) :
    (checkThread s tid).1.frame = s.frame := by
  unfold checkThread
  split <;> rfl

lemma checkThread_lastThreadId (s : SState) (tid : Nat) :
    (checkThread s tid).1.lastThreadId = tid := by
  unfold checkThread
  split
  · rfl
  · next h =>
    simp only [ne_eq, not_not] at h
    exact h

lemma processEvent_notmark_noemit (skip limit : Nat) (s : SState) (e : RawEvent)
    (hne : e.etype ≠ .mark) (h : ¬ s.frame > skip) :
    processEvent skip limit s e = ⟨s, [], false⟩ := by
  obtain ⟨et, a, b, t⟩ := e
  cases et <;> simp_all [processEvent]

lemma processEvent_mark_eq (skip limit : Nat) (l ts f a b t : Nat) :
    processEvent skip limit ⟨l, ts, f⟩ ⟨.mark, a, b, t⟩
      = ⟨⟨l, ts, f + 1⟩,
         if f + 1 > skip then [.frameMark t 0] else [],
         decide (f + 1 > skip + limit)⟩ := rfl

lemma processEvent_notmark_invariants (skip limit : Nat) (s : SState) (e : RawEvent)
    (hne : e.etype ≠ .mark) :
    (processEvent skip limit s e).brk = false
    ∧ (processEvent skip limit s e).state.frame = s.frame := by
  obtain ⟨et, a, b, t⟩ := e
  cases et with
  | mark => simp at hne
  | begin =>
    simp only [processEvent]
    split <;> simp [checkThread_frame]
  | end_ =>
    simp only [processEvent]
    split <;> simp [checkThread_frame]
  | color =>
    simp only [processEvent]
    split <;> simp [checkThread_frame]

lemma streamRunFull_cons_nobrk (skip limit : Nat) (s : SState) (e : RawEvent)
    (rest : List RawEvent) (hnb : (processEvent skip limit s e).brk = false) :
    streamRunFull skip limit s (e :: rest)
      = ⟨(processEvent skip limit s e).out
          ++ (streamRunFull skip limit (processEvent skip limit s e).state rest).out,
         (streamRunFull skip limit (processEvent skip limit s e).state rest).state,
         (streamRunFull skip limit (processEvent skip limit s e).state rest).leftover⟩ := by
  simp [streamRunFull, hnb]

lemma streamRunFull_cons_brk (skip limit : Nat) (s : SState) (e : RawEvent)
    (rest : List RawEvent) (hb : (processEvent skip limit s e).brk = true) :
    streamRunFull skip limit s (e :: rest)
      = ⟨(processEvent skip limit s e).out, (processEvent skip limit s e).state, rest⟩ := by
  simp [streamRunFull, hb]

/-! ## Claim C4 -/

/-- C4: with `skip_frames = skip`, as long as at most `skip` frame marks have
been counted the streaming loop emits nothing and changes nothing but the frame
counter: the run on `pre ++ suf` equals the run on `suf` alone from the state
whose frame counter has absorbed the marks of `pre`.  In particular (taking
`suf = []`) no event response record at all is emitted before the
`skip + 1`-th frame mark has been counted. -/
theorem c4_skip_window (skip limit l ts f : Nat) (pre suf : List RawEvent)
    (h : f + countMarks pre ≤ skip) :
    streamRunFull skip limit ⟨l, ts, f⟩ (pre ++ suf)
      = streamRunFull skip limit ⟨l, ts, f + countMarks pre⟩ suf := by
  induction pre generalizing f with
  | nil => simp [countMarks]
  | cons e pre ih =>
    obtain ⟨et, a, b, t⟩ := e
    cases et with
    | mark =>
      have h' : f + 1 + countMarks pre ≤ skip := by
        simp only [countMarks] at h
        simp at h
        omega
      have hno : ¬ (f + 1 > skip) := by omega
      have hnb : ¬ (f + 1 > skip + limit) := by omega
      have hcm : countMarks (⟨EventType.mark, a, b, t⟩ :: pre) = 1 + countMarks pre := by
        simp [countMarks]
      rw [hcm, List.cons_append]
      have hstep : streamRunFull skip limit ⟨l, ts, f⟩
            (⟨EventType.mark, a, b, t⟩ :: (pre ++ suf))
          = streamRunFull skip limit ⟨l, ts, f + 1⟩ (pre ++ suf) := by
        simp [streamRunFull, processEvent_mark_eq, hno, hnb]
      rw [hstep, ih (f + 1) h']
      have harr : f + 1 + countMarks pre = f + (1 + countMarks pre) := by omega
      rw [harr]
    | begin =>
      have h' : f + countMarks pre ≤ skip := by
        simp only [countMarks] at h
        simpa using h
      have hno : ¬ (f > skip) := by omega
      have hcm : countMarks (⟨EventType.begin, a, b, t⟩ :: pre) = countMarks pre := by
        simp [countMarks]
      rw [hcm, List.cons_append]
      have hstep : streamRunFull skip limit ⟨l, ts, f⟩
            (⟨EventType.begin, a, b, t⟩ :: (pre ++ suf))
          = streamRunFull skip limit ⟨l, ts, f⟩ (pre ++ suf) := by
        simp [streamRunFull,
          processEvent_notmark_noemit skip limit ⟨l, ts, f⟩ ⟨EventType.begin, a, b, t⟩
            (by simp) hno]
      rw [hstep, ih f h']
    | end_ =>
      have h' : f + countMarks pre ≤ skip := by
        simp only [countMarks] at h
        simpa using h
      have hno : ¬ (f > skip) := by omega
      have hcm : countMarks (⟨EventType.end_, a, b, t⟩ :: pre) = countMarks pre := by
        simp [countMarks]
      rw [hcm, List.cons_append]
      have hstep : streamRunFull skip limit ⟨l, ts, f⟩
            (⟨EventType.end_, a, b, t⟩ :: (pre ++ suf))
          = streamRunFull skip limit ⟨l, ts, f⟩ (pre ++ suf) := by
        simp [streamRunFull,
          processEvent_notmark_noemit skip limit ⟨l, ts, f⟩ ⟨EventType.end_, a, b, t⟩
            (by simp) hno]
      rw [hstep, ih f h']
    | color =>
      have h' : f + countMarks pre ≤ skip := by
        simp only [countMarks] at h
        simpa using h
      have hno : ¬ (f > skip) := by omega
      have hcm : countMarks (⟨EventType.color, a, b, t⟩ :: pre) = countMarks pre := by
        simp [countMarks]
      rw [hcm, List.cons_append]
      have hstep : streamRunFull skip limit ⟨l, ts, f⟩
            (⟨EventType.color, a, b, t⟩ :: (pre ++ suf))
          = streamRunFull skip limit ⟨l, ts, f⟩ (pre ++ suf) := by
        simp [streamRunFull,
          processEvent_notmark_noemit skip limit ⟨l, ts, f⟩ ⟨EventType.color, a, b, t⟩
            (by simp) hno]
      rw [hstep, ih f h']

/-- Witness for C4: with `skip = 2`, a prefix containing one frame mark and one
zone event produces no output; the whole run equals the run on the suffix. -/
theorem c4_skip_window_witness :
    ((0 : Nat) + countMarks [⟨.mark, 0, 0, 10⟩, ⟨.begin, 1, 2, 30⟩] ≤ 2)
    ∧ streamRunFull 2 5 ⟨0, 0, 0⟩
        ([⟨.mark, 0, 0, 10⟩, ⟨.begin, 1, 2, 30⟩] ++ [⟨.mark, 0, 0, 40⟩])
      = streamRunFull 2 5
          ⟨0, 0, 0 + countMarks [⟨.mark, 0, 0, 10⟩, ⟨.begin, 1, 2, 30⟩]⟩
          [⟨.mark, 0, 0, 40⟩] :=
  ⟨by decide,
   c4_skip_window 2 5 0 0 0 [⟨.mark, 0, 0, 10⟩, ⟨.begin, 1, 2, 30⟩]
     [⟨.mark, 0, 0, 40⟩] (by decide)⟩

/-! ## Claim C5 -/

/-- C5: with `skip_frames = skip` and `limit_frames = limit`, the streaming
loop stops at the frame mark that carries the counter past `skip + limit`:
the run on `pre ++ mark :: suf` (where `pre` contains exactly the marks needed
to reach `skip + limit`) equals the run on `pre ++ [mark]`, and the entire
suffix `suf` is left undecoded and unemitted. -/
theorem c5_limit_stop (skip limit l ts f n fb t : Nat) (pre suf : List RawEvent)
    (h : f + countMarks pre = skip + limit) :
    streamRunFull skip limit ⟨l, ts, f⟩ (pre ++ ⟨.mark, n, fb, t⟩ :: suf)
      = ⟨(streamRunFull skip limit ⟨l, ts, f⟩ (pre ++ [⟨.mark, n, fb, t⟩])).out,
         (streamRunFull skip limit ⟨l, ts, f⟩ (pre ++ [⟨.mark, n, fb, t⟩])).state,
         suf⟩ := by
  induction pre generalizing l ts f with
  | nil =>
    have hf : f = skip + limit := by simpa [countMarks] using h
    subst hf
    have hb : (processEvent skip limit ⟨l, ts, skip + limit⟩
        ⟨.mark, n, fb, t⟩).brk = true := by
      simp only [processEvent_mark_eq, decide_eq_true_eq]
      omega
    rw [List.nil_append, List.nil_append, streamRunFull_cons_brk _ _ _ _ _ hb,
        streamRunFull_cons_brk _ _ _ _ _ hb]
  | cons e pre ih =>
    obtain ⟨et, a, b, t2⟩ := e
    by_cases hm : et = EventType.mark
    · subst hm
      have h' : (f + 1) + countMarks pre = skip + limit := by
        simp [countMarks] at h
        omega
      have hnb : (processEvent skip limit ⟨l, ts, f⟩ ⟨.mark, a, b, t2⟩).brk = false := by
        simp only [processEvent_mark_eq, decide_eq_false_iff_not]
        omega
      rw [List.cons_append, List.cons_append,
          streamRunFull_cons_nobrk _ _ _ _ _ hnb, streamRunFull_cons_nobrk _ _ _ _ _ hnb]
      simp only [processEvent_mark_eq]
      rw [ih l ts (f + 1) h']
    · have hne : (⟨et, a, b, t2⟩ : RawEvent).etype ≠ EventType.mark := by simpa using hm
      obtain ⟨hnb, hfr⟩ := processEvent_notmark_invariants skip limit ⟨l, ts, f⟩ _ hne
      have h' : f + countMarks pre = skip + limit := by
        simpa [countMarks, hm] using h
      rw [List.cons_append, List.cons_append,
          streamRunFull_cons_nobrk _ _ _ _ _ hnb, streamRunFull_cons_nobrk _ _ _ _ _ hnb]
      have ihS := ih (processEvent skip limit ⟨l, ts, f⟩ ⟨et, a, b, t2⟩).state.lastThreadId
        (processEvent skip limit ⟨l, ts, f⟩ ⟨et, a, b, t2⟩).state.timestamp
        (processEvent skip limit ⟨l, ts, f⟩ ⟨et, a, b, t2⟩).state.frame
        (by rw [hfr]; exact h')
      have heta : (⟨(processEvent skip limit ⟨l, ts, f⟩ ⟨et, a, b, t2⟩).state.lastThreadId,
          (processEvent skip limit ⟨l, ts, f⟩ ⟨et, a, b, t2⟩).state.timestamp,
          (processEvent skip limit ⟨l, ts, f⟩ ⟨et, a, b, t2⟩).state.frame⟩ : SState)
          = (processEvent skip limit ⟨l, ts, f⟩ ⟨et, a, b, t2⟩).state := rfl
      rw [heta] at ihS
      rw [ihS]

/-- Witness for C5: `skip = 1`, `limit = 1`, two marks in the prefix; the third
mark trips the bound and the remaining zone event is never processed. -/
theorem c5_limit_stop_witness :
    ((0 : Nat) + countMarks [⟨.mark, 0, 0, 10⟩, ⟨.mark, 0, 0, 20⟩] = 1 + 1)
    ∧ streamRunFull 1 1 ⟨0, 0, 0⟩
        ([⟨.mark, 0, 0, 10⟩, ⟨.mark, 0, 0, 20⟩] ++ ⟨.mark, 5, 6, 30⟩ :: [⟨.begin, 1, 2, 40⟩])
      = ⟨(streamRunFull 1 1 ⟨0, 0, 0⟩
            ([⟨.mark, 0, 0, 10⟩, ⟨.mark, 0, 0, 20⟩] ++ [⟨.mark, 5, 6, 30⟩])).out,
         (streamRunFull 1 1 ⟨0, 0, 0⟩
            ([⟨.mark, 0, 0, 10⟩, ⟨.mark, 0, 0, 20⟩] ++ [⟨.mark, 5, 6, 30⟩])).state,
         [⟨.begin, 1, 2, 40⟩]⟩ :=
  ⟨by decide,
   c5_limit_stop 1 1 0 0 0 5 6 30 [⟨.mark, 0, 0, 10⟩, ⟨.mark, 0, 0, 20⟩]
     [⟨.begin, 1, 2, 40⟩] (by decide)⟩

/-! ## Claim C3: helper lemmas -/

lemma countTC_append (a b : List NetRecord) : countTC (a ++ b) = countTC a + countTC b := by
  simp [countTC, List.countP_append]

lemma countTC_checkThread (s : SState) (tid : Nat) :
    countTC (checkThread s tid).2 = if tid = s.lastThreadId then 0 else 1 := by
  by_cases h : s.lastThreadId = tid
  · simp [checkThread, h, countTC]
  · simp [checkThread, h, countTC, isThreadContext, List.countP_cons, Ne.symm h]

lemma processEvent_zone_emit (skip limit : Nat) (s : SState) (e : RawEvent)
    (hne : e.etype ≠ .mark) (hf : s.frame > skip) :
    ∃ r, (processEvent skip limit s e).out = (checkThread s e.fieldA).2 ++ [r]
      ∧ isThreadContext r = false
      ∧ (processEvent skip limit s e).state.lastThreadId
          = (checkThread s e.fieldA).1.lastThreadId := by
  obtain ⟨et, a, b, t⟩ := e
  cases et with
  | mark => simp at hne
  | begin =>
    refine ⟨.zoneBegin (wsub t (checkThread s a).1.timestamp) b, ?_, rfl, ?_⟩ <;>
      simp [processEvent, hf]
  | end_ =>
    refine ⟨.zoneEnd (wsub t (checkThread s a).1.timestamp), ?_, rfl, ?_⟩ <;>
      simp [processEvent, hf]
  | color =>
    refine ⟨.zoneColor (byteAt 0 b) (byteAt 1 b) (byteAt 2 b), ?_, rfl, ?_⟩ <;>
      simp [processEvent, hf]

lemma numRuns_pos (a : Nat) (t : List Nat) : 1 ≤ numRuns (a :: t) := by
  induction t generalizing a with
  | nil => simp [numRuns]
  | cons b t' ih =>
    have hb := ih b
    simp only [numRuns]
    omega

lemma numSwitches_eq_numRuns (l : List Nat) :
    ∀ last : Nat, numSwitches last l
      = numRuns l - (if l.head? = some last then 1 else 0) := by
  induction l with
  | nil => intro last; simp [numSwitches, numRuns]
  | cons a t ih =>
    intro last
    have hstep : numSwitches last (a :: t) = (if a = last then 0 else 1) + numSwitches a t :=
      rfl
    rw [hstep, ih a]
    cases t with
    | nil =>
      by_cases h : a = last <;> simp [numRuns, numSwitches, h]
    | cons b t' =>
      have hpos := numRuns_pos b t'
      have hruns : numRuns (a :: b :: t') = (if a = b then 0 else 1) + numRuns (b :: t') :=
        rfl
      rw [hruns]
      simp only [List.head?_cons, Option.some.injEq]
      split_ifs <;> omega

/-- The bridge between the streaming loop and the run structure of the emitted
zone events: the number of thread-context records emitted equals the number of
switch points of the emitted zone thread-id sequence relative to the current
`last_thread_id`. -/
lemma countTC_streamRun (skip limit : Nat) :
    ∀ (events : List RawEvent) (s : SState),
      countTC (streamRunFull skip limit s events).out
        = numSwitches s.lastThreadId (zoneTids skip limit s.frame events) := by
  intro events
  induction events with
  | nil =>
    intro s
    simp [streamRunFull, countTC, zoneTids, emittedZones, numSwitches]
  | cons e rest ih =>
    rintro ⟨l, ts, f⟩
    obtain ⟨et, a, b, t⟩ := e
    by_cases hm : et = EventType.mark
    · subst hm
      by_cases hb : f + 1 > skip + limit
      · have hbrk : (processEvent skip limit ⟨l, ts, f⟩ ⟨.mark, a, b, t⟩).brk = true := by
          simp only [processEvent_mark_eq, decide_eq_true_eq]
          exact hb
        rw [streamRunFull_cons_brk _ _ _ _ _ hbrk]
        simp only [processEvent_mark_eq, zoneTids, emittedZones, if_pos hb]
        split_ifs <;> simp [countTC, isThreadContext, numSwitches, List.countP_cons]
      · have hnbrk : (processEvent skip limit ⟨l, ts, f⟩ ⟨.mark, a, b, t⟩).brk = false := by
          simp only [processEvent_mark_eq, decide_eq_false_iff_not]
          exact hb
        rw [streamRunFull_cons_nobrk _ _ _ _ _ hnbrk]
        rw [countTC_append]
        simp only [processEvent_mark_eq]
        have h2 := ih ⟨l, ts, f + 1⟩
        simp only [h2]
        have hz : zoneTids skip limit f (⟨EventType.mark, a, b, t⟩ :: rest)
            = zoneTids skip limit (f + 1) rest := by
          simp [zoneTids, emittedZones, hb]
        rw [hz]
        split_ifs <;> simp [countTC, isThreadContext, List.countP_cons]
    · have hne : (⟨et, a, b, t⟩ : RawEvent).etype ≠ EventType.mark := by simpa using hm
      obtain ⟨hnb, hfr⟩ := processEvent_notmark_invariants skip limit ⟨l, ts, f⟩ _ hne
      rw [streamRunFull_cons_nobrk _ _ _ _ _ hnb, countTC_append]
      by_cases hf : f > skip
      · obtain ⟨r, hout, hrtc, hlast⟩ :=
          processEvent_zone_emit skip limit ⟨l, ts, f⟩ ⟨et, a, b, t⟩ hne hf
        rw [hout, countTC_append]
        have h2 := ih (processEvent skip limit ⟨l, ts, f⟩ ⟨et, a, b, t⟩).state
        rw [hfr, hlast, checkThread_lastThreadId] at h2
        rw [h2]
        have hz : zoneTids skip limit f (⟨et, a, b, t⟩ :: rest)
            = a :: zoneTids skip limit f rest := by
          simp [zoneTids, emittedZones, hm, hf]
        rw [hz]
        simp only [numSwitches, countTC_checkThread]
        have hr1 : countTC [r] = 0 := by simp [countTC, List.countP_cons, hrtc]
        rw [hr1]
        by_cases hal : a = l <;> simp [hal]
      · have hpe := processEvent_notmark_noemit skip limit ⟨l, ts, f⟩ ⟨et, a, b, t⟩ hne hf
        rw [hpe]
        have h2 := ih ⟨l, ts, f⟩
        simp only [h2]
        have hz : zoneTids skip limit f (⟨et, a, b, t⟩ :: rest)
            = zoneTids skip limit f rest := by
          simp [zoneTids, emittedZones, hm, hf]
        rw [hz]
        simp [countTC]

/-! ## Claim C3 -/

/-- Counterexample to C3 as stated: a trace whose emitted zone events form one
single run of thread id 0 (the initial `last_thread_id`) produces zero
thread-context-switch records, not one per run. -/
theorem c3_counterexample :
    countTC (streamRunFull 0 10 ⟨0, 0, 0⟩
        [⟨.mark, 0, 0, 50⟩, ⟨.begin, 0, 7, 100⟩]).out = 0
    ∧ numRuns (zoneTids 0 10 0 [⟨.mark, 0, 0, 50⟩, ⟨.begin, 0, 7, 100⟩]) = 1 := by
  constructor <;> decide

/-- C3 (corrected): a thread-context-switch record is emitted exactly once per
distinct consecutive run of a given thread id among the emitted zone events,
EXCEPT that no record is emitted for the first run when its thread id equals
the initial `last_thread_id` value 0; equivalently, the number of emitted
thread-context records is the number of runs minus one exactly when the first
emitted zone event has thread id 0.  Whenever the thread check fires, it emits
the record and resets the running timestamp baseline to 0. -/
theorem c3_thread_switch_corrected :
    (∀ (skip limit : Nat) (events : List RawEvent),
      countTC (streamRunFull skip limit ⟨0, 0, 0⟩ events).out
        = numRuns (zoneTids skip limit 0 events)
          - (if (zoneTids skip limit 0 events).head? = some 0 then 1 else 0))
    ∧ ∀ (s : SState) (tid : Nat), s.lastThreadId ≠ tid →
        (checkThread s tid).1.timestamp = 0
        ∧ (checkThread s tid).2 = [.threadContext tid] := by
  constructor
  · intro skip limit events
    rw [countTC_streamRun skip limit events ⟨0, 0, 0⟩]
    exact numSwitches_eq_numRuns (zoneTids skip limit 0 events) 0
  · intro s tid h
    simp [checkThread, h]

/-- Witness for C3 (corrected) at a concrete run with two thread-id runs
(4 then 9), the first differing from the initial id 0: two context records. -/
theorem c3_thread_switch_corrected_witness :
    (countTC (streamRunFull 0 10 ⟨0, 0, 0⟩
        [⟨.mark, 0, 0, 50⟩, ⟨.begin, 4, 7, 100⟩, ⟨.end_, 4, 0, 150⟩,
         ⟨.begin, 9, 8, 200⟩]).out
      = numRuns (zoneTids 0 10 0
          [⟨.mark, 0, 0, 50⟩, ⟨.begin, 4, 7, 100⟩, ⟨.end_, 4, 0, 150⟩,
           ⟨.begin, 9, 8, 200⟩])
        - (if (zoneTids 0 10 0
            [⟨.mark, 0, 0, 50⟩, ⟨.begin, 4, 7, 100⟩, ⟨.end_, 4, 0, 150⟩,
             ⟨.begin, 9, 8, 200⟩]).head? = some 0 then 1 else 0))
    ∧ ((⟨3, 50, 2⟩ : SState).lastThreadId ≠ 8)
    ∧ (checkThread ⟨3, 50, 2⟩ 8).1.timestamp = 0
    ∧ (checkThread ⟨3, 50, 2⟩ 8).2 = [.threadContext 8] := by
  refine ⟨c3_thread_switch_corrected.1 0 10 _, by decide, ?_, ?_⟩
  · exact (c3_thread_switch_corrected.2 ⟨3, 50, 2⟩ 8 (by decide)).1
  · exact (c3_thread_switch_corrected.2 ⟨3, 50, 2⟩ 8 (by decide)).2

/-! ## Claim C9 -/

/-- C9: interning the same string content twice within one load yields the same
identifier both times, regardless of which other strings are interned between
the two calls. -/
theorem c9_intern_stable (hash : String → Nat)
    (hb : ∀ t, hash t < u64Size) (locs : List UTracySourceLocation)
    (hlen : 1 + 3 * locs.length < u64Size) :
    ∀ p ∈ (loadLocations hash initialStrings locs).2.2,
      ∀ q ∈ (loadLocations hash initialStrings locs).2.2,
        p.1 = q.1 → p.2 = q.2 := by
  have hP0 : lookupS initialStrings 0 = some "" := by simp [initialStrings, lookupS]
  have hlen0 : initialStrings.length + 3 * locs.length < u64Size := by
    simp only [initialStrings, List.length_singleton]
    omega
  obtain ⟨_, _, _, htr⟩ := loadLocations_inv hash hb locs initialStrings hP0 hlen0
  intro p hp q hq hpq
  obtain ⟨j1, hid1, hlk1, hmin1⟩ := htr p hp
  obtain ⟨j2, hid2, hlk2, hmin2⟩ := htr q hq
  rcases lt_trichotomy j1 j2 with hlt | heq | hgt
  · exfalso
    apply hmin2 j1 hlt
    refine Or.inr ?_
    rw [← hpq, ← hid1]
    exact hlk1
  · rw [hid1, hid2, heq, hpq]
  · exfalso
    apply hmin1 j2 hgt
    refine Or.inr ?_
    rw [hpq, ← hid2]
    exact hlk2

/-- Witness for C9 at a concrete load: with the constant hash 5, both interning
occurrences of "a" (as the name string and again as the file string of the same
record) receive identifier 5; the full assignment trace is computed. -/
theorem c9_intern_stable_witness :
    (loadLocations (fun _ => 5) initialStrings
        [⟨"a", "b", "a", 3, [1, 2, 3, 4]⟩]).2.2
      = [("a", 5), ("b", 6), ("a", 5)]
    ∧ ((("a" : String), (5 : Nat)).2 = ((("a" : String), (5 : Nat))).2) := by
  refine ⟨by decide, ?_⟩
  exact c9_intern_stable (fun _ => 5) (fun _ => by norm_num [u64Size])
    [⟨"a", "b", "a", 3, [1, 2, 3, 4]⟩] (by norm_num [u64Size])
    ("a", 5) (by decide) ("a", 5) (by decide) rfl

/-! ## Claim C10: codec lemmas -/

lemma readLE_length : ∀ (n : Nat) (bs : List Nat) (v : Nat) (rest : List Nat),
    readLE n bs = some (v, rest) → bs.length = n + rest.length := by
  intro n
  induction n with
  | zero =>
    intro bs v rest h
    simp [readLE] at h
    obtain ⟨-, h2⟩ := h
    subst h2
    omega
  | succ n ih =>
    intro bs v rest h
    cases bs with
    | nil => simp [readLE] at h
    | cons b bs' =>
      simp only [readLE] at h
      rcases hr : readLE n bs' with _ | ⟨v', rest'⟩ <;> rw [hr] at h
      · simp at h
      · simp at h
        obtain ⟨-, h2⟩ := h
        subst h2
        have := ih bs' v' rest' hr
        simp only [List.length_cons]
        omega

lemma decodeUTracyEvent_length (bs : List Nat) (e : RawEvent) (rest : List Nat)
    (h : decodeUTracyEvent bs = some (e, rest)) : bs.length = 24 + rest.length := by
  unfold decodeUTracyEvent at h
  rcases h1 : readLE 1 bs with _ | ⟨tb, bs1⟩ <;> rw [h1] at h <;>
    simp only [Option.none_bind, Option.some_bind] at h
  · exact absurd h (by simp)
  rcases h2 : decodeEventType tb with _ | et <;> rw [h2] at h <;>
    simp only [Option.none_bind, Option.some_bind] at h
  · exact absurd h (by simp)
  rcases h3 : readLE 7 bs1 with _ | ⟨p7, bs2⟩ <;> rw [h3] at h <;>
    simp only [Option.none_bind, Option.some_bind] at h
  · exact absurd h (by simp)
  rcases h4 : readLE 4 bs2 with _ | ⟨a, bs3⟩ <;> rw [h4] at h <;>
    simp only [Option.none_bind, Option.some_bind] at h
  · exact absurd h (by simp)
  rcases h5 : readLE 4 bs3 with _ | ⟨b, bs4⟩ <;> rw [h5] at h <;>
    simp only [Option.none_bind, Option.some_bind] at h
  · exact absurd h (by simp)
  rcases h6 : readLE 8 bs4 with _ | ⟨t, bs5⟩ <;> rw [h6] at h <;>
    simp only [Option.none_bind, Option.some_bind] at h
  · exact absurd h (by simp)
  have e1 := readLE_length 1 bs tb bs1 h1
  have e3 := readLE_length 7 bs1 p7 bs2 h3
  have e4 := readLE_length 4 bs2 a bs3 h4
  have e5 := readLE_length 4 bs3 b bs4 h5
  have e6 := readLE_length 8 bs4 t bs5 h6
  have hrest : rest = bs5 := by
    simp at h
    exact h.2.symm
  subst hrest
  omega

/-! ## Claim C10 -/

/-- C10: every successfully decoded trace event record consumes exactly 24
bytes of the event stream regardless of its discriminant; consequently after
`n` successfully decoded events the cursor sits exactly `24 * n` bytes past
where it started, having produced exactly `n` events. -/
theorem c10_event_record_size (n : Nat) :
    ∀ (bs : List Nat) (es : List RawEvent) (rest : List Nat),
      decodeEventsN n bs = some (es, rest) →
      bs.length = 24 * n + rest.length ∧ es.length = n := by
  induction n with
  | zero =>
    intro bs es rest h
    simp [decodeEventsN] at h
    obtain ⟨h1, h2⟩ := h
    subst h1
    subst h2
    simp
  | succ n ih =>
    intro bs es rest h
    simp only [decodeEventsN] at h
    rcases hd : decodeUTracyEvent bs with _ | ⟨e, rest1⟩ <;> rw [hd] at h <;>
      simp only [Option.none_bind, Option.some_bind] at h
    · exact absurd h (by simp)
    rcases hn : decodeEventsN n rest1 with _ | ⟨es', rest'⟩ <;> rw [hn] at h <;>
      simp only [Option.none_bind, Option.some_bind] at h
    · exact absurd h (by simp)
    simp at h
    obtain ⟨h1, h2⟩ := h
    subst h1
    subst h2
    obtain ⟨hl, he⟩ := ih rest1 es' rest' hn
    have := decodeUTracyEvent_length bs e rest1 hd
    constructor
    · omega
    · simp [he]

/-- Witness for C10: two concrete 24-byte event records (a zone-begin and a
frame-mark) decode to two events and consume all 48 bytes. -/
theorem c10_event_record_size_witness :
    decodeEventsN 2
        [15, 0, 0, 0, 0, 0, 0, 0, 1, 0, 0, 0, 2, 0, 0, 0,
         100, 0, 0, 0, 0, 0, 0, 0,
         64, 0, 0, 0, 0, 0, 0, 0, 0, 0, 0, 0, 0, 0, 0, 0,
         200, 0, 0, 0, 0, 0, 0, 0]
      = some ([⟨.begin, 1, 2, 100⟩, ⟨.mark, 0, 0, 200⟩], [])
    ∧ ([15, 0, 0, 0, 0, 0, 0, 0, 1, 0, 0, 0, 2, 0, 0, 0,
        100, 0, 0, 0, 0, 0, 0, 0,
        64, 0, 0, 0, 0, 0, 0, 0, 0, 0, 0, 0, 0, 0, 0, 0,
        200, 0, 0, 0, 0, 0, 0, 0] : List Nat).length
        = 24 * 2 + ([] : List Nat).length
    ∧ ([⟨.begin, 1, 2, 100⟩, ⟨.mark, 0, 0, 200⟩] : List RawEvent).length = 2 := by
  refine ⟨by decide, ?_, ?_⟩
  · exact (c10_event_record_size 2
      [15, 0, 0, 0, 0, 0, 0, 0, 1, 0, 0, 0, 2, 0, 0, 0,
       100, 0, 0, 0, 0, 0, 0, 0,
       64, 0, 0, 0, 0, 0, 0, 0, 0, 0, 0, 0, 0, 0, 0, 0,
       200, 0, 0, 0, 0, 0, 0, 0]
      [⟨.begin, 1, 2, 100⟩, ⟨.mark, 0, 0, 200⟩] [] (by decide)).1
  · exact (c10_event_record_size 2
      [15, 0, 0, 0, 0, 0, 0, 0, 1, 0, 0, 0, 2, 0, 0, 0,
       100, 0, 0, 0, 0, 0, 0, 0,
       64, 0, 0, 0, 0, 0, 0, 0, 0, 0, 0, 0, 0, 0, 0, 0,
       200, 0, 0, 0, 0, 0, 0, 0]
      [⟨.begin, 1, 2, 100⟩, ⟨.mark, 0, 0, 200⟩] [] (by decide)).2

/-! ## Claim C6 -/

lemma processClientBytesF_fuel (skip limit : Nat) :
    ∀ (f1 : Nat) (bs : List Nat) (f2 : Nat) (s : SState),
      bs.length < f1 → bs.length < f2 →
      processClientBytesF skip limit f1 s bs = processClientBytesF skip limit f2 s bs := by
  intro f1
  induction f1 with
  | zero =>
    intro bs f2 s h1 h2
    omega
  | succ f1 ih =>
    intro bs f2 s h1 h2
    cases f2 with
    | zero => omega
    | succ f2 =>
      rcases hd : decodeUTracyEvent bs with _ | ⟨e, rest⟩
      · simp [processClientBytesF, hd]
      · have hlen := decodeUTracyEvent_length bs e rest hd
        have hrec := ih rest f2 (processEvent skip limit s e).state
          (by omega) (by omega)
        simp [processClientBytesF, hd, hrec]

lemma decodeGreedyF_fuel :
    ∀ (f1 : Nat) (bs : List Nat) (f2 : Nat),
      bs.length < f1 → bs.length < f2 →
      decodeGreedyF f1 bs = decodeGreedyF f2 bs := by
  intro f1
  induction f1 with
  | zero =>
    intro bs f2 h1 h2
    omega
  | succ f1 ih =>
    intro bs f2 h1 h2
    cases f2 with
    | zero => omega
    | succ f2 =>
      rcases hd : decodeUTracyEvent bs with _ | ⟨e, rest⟩
      · simp [decodeGreedyF, hd]
      · have hlen := decodeUTracyEvent_length bs e rest hd
        have hrec := ih rest f2 (by omega) (by omega)
        simp [decodeGreedyF, hd, hrec]

lemma processClientBytesF_bridge (skip limit : Nat) :
    ∀ (fuel : Nat) (bs : List Nat) (s : SState), bs.length < fuel →
      (processClientBytesF skip limit fuel s bs).1
        = (streamRunFull skip limit s (decodeGreedyF fuel bs)).out := by
  intro fuel
  induction fuel with
  | zero =>
    intro bs s h
    omega
  | succ fuel ih =>
    intro bs s h
    rcases hd : decodeUTracyEvent bs with _ | ⟨e, rest⟩
    · simp [processClientBytesF, decodeGreedyF, hd, streamRunFull]
    · have hlen := decodeUTracyEvent_length bs e rest hd
      have hrec := ih rest (processEvent skip limit s e).state (by omega)
      by_cases hb : (processEvent skip limit s e).brk
      · simp [processClientBytesF, decodeGreedyF, hd, hb, streamRunFull]
      · simp [processClientBytesF, decodeGreedyF, hd, hb, streamRunFull, hrec]

/-- Counterexample to C6 as stated: a byte stream consisting of one valid
frame-mark record followed by the single byte 99 — an invalid event
discriminant, hence a decode error that is NOT mere end-of-data — still leaves
`process_client` returning `Ok`: the loop swallows the error exactly as if the
stream had ended cleanly, and reports nothing to the caller. -/
theorem c6_counterexample :
    (processClientBytes 0 10 ⟨0, 0, 0⟩
        [64, 0, 0, 0, 0, 0, 0, 0, 0, 0, 0, 0, 0, 0, 0, 0,
         200, 0, 0, 0, 0, 0, 0, 0, 99]).2.2 = [99]
    ∧ decodeUTracyEvent [99] = none
    ∧ processClientModel 0 10 ⟨0, 0, 0⟩
        [64, 0, 0, 0, 0, 0, 0, 0, 0, 0, 0, 0, 0, 0, 0, 0,
         200, 0, 0, 0, 0, 0, 0, 0, 99]
      = .ok [.frameMark 200 0] := by
  refine ⟨by decide, by decide, ?_⟩
  rfl

/-- C6 (corrected): a decode error in the Streaming state (unexpected event
discriminant, truncated record, or genuine end-of-data — the loop cannot tell
them apart) is never reported to the caller: `process_client` always completes
with `Ok`, behaving exactly as if the event stream had ended at the first
undecodable position; the emitted output is precisely the streaming run over
the maximal successfully-decodable event prefix.  (Decode errors are still
never substituted by default event values: the decoder yields no event at
all.) -/
theorem c6_decode_error_ends_stream (skip limit : Nat) (s : SState) (bs : List Nat) :
    processClientModel skip limit s bs
      = .ok ((streamRunFull skip limit s (decodeGreedy bs)).out) := by
  unfold processClientModel processClientBytes decodeGreedy
  rw [processClientBytesF_bridge skip limit (bs.length + 1) bs s (by omega)]

/-! ## Claim C7 -/

/-- C7: a source-location lookup query whose ordinal index is within the
location table returns the resident `SourceLocation` at that index; an
out-of-range index makes the dispatcher fail (the `unwrap` panic), a fatal
error for this connection. -/
theorem c7_source_location_lookup (locs : List SourceLocation) (strings : StrMap)
    (ptr : Nat) :
    (∀ h : ptr < locs.length,
      dispatchQuery locs strings .sourceLocation ptr
        = .ok (.reply [.sourceLocationMsg (locs.get ⟨ptr, h⟩)]))
    ∧ (locs.length ≤ ptr →
        ∃ msg, dispatchQuery locs strings .sourceLocation ptr = .error msg) := by
  constructor
  · intro h
    have hget : locs[ptr]? = some (locs.get ⟨ptr, h⟩) := by
      rw [List.getElem?_eq_getElem h]
      simp [List.get_eq_getElem]
    simp [dispatchQuery, hget]
  · intro h
    have hget : locs[ptr]? = none := by
      rw [List.getElem?_eq_none_iff]
      exact h
    exact ⟨"called Option::unwrap() on a None value", by simp [dispatchQuery, hget]⟩

/-- Witness for C7: a one-element location table; index 0 resolves to the
stored record, index 3 is fatal. -/
theorem c7_source_location_lookup_witness :
    ((0 : Nat) < ([⟨1, 2, 3, 4, 5, 6, 7⟩] : List SourceLocation).length)
    ∧ dispatchQuery [⟨1, 2, 3, 4, 5, 6, 7⟩] [] .sourceLocation 0
        = .ok (.reply [.sourceLocationMsg
            (([⟨1, 2, 3, 4, 5, 6, 7⟩] : List SourceLocation).get ⟨0, by decide⟩)])
    ∧ (([⟨1, 2, 3, 4, 5, 6, 7⟩] : List SourceLocation).length ≤ 3)
    ∧ ∃ msg, dispatchQuery [⟨1, 2, 3, 4, 5, 6, 7⟩] [] .sourceLocation 3 = .error msg := by
  refine ⟨by decide, (c7_source_location_lookup [⟨1, 2, 3, 4, 5, 6, 7⟩] [] 0).1 (by decide),
    by decide, (c7_source_location_lookup [⟨1, 2, 3, 4, 5, 6, 7⟩] [] 3).2 (by decide)⟩

/-! ## Claim C8 -/

/-- C8: a client that completes a correct handshake ("TracyPrf", version 76)
with `skip_frames = 0` and the default unlimited `limit_frames` (`u32::MAX`),
replaying a trace of 3 frame-marks and 5 zone events (all on thread 0, which
never triggers a context switch), receives the welcome status, the header
record, and then all 5 zone events (delta-encoded) and all 3 frame-mark
records in their original stream order. -/
theorem c8_replay_scenario :
    handleClientModel 0 4294967295 "TracyPrf" 76
      [⟨.mark, 0, 0, 1000⟩, ⟨.begin, 0, 7, 1100⟩, ⟨.end_, 0, 0, 1200⟩,
       ⟨.color, 0, 197121, 0⟩, ⟨.mark, 0, 0, 1300⟩, ⟨.begin, 0, 8, 1400⟩,
       ⟨.end_, 0, 0, 1500⟩, ⟨.mark, 0, 0, 1600⟩]
      = .ok [.status 1, .header,
             .record (.frameMark 1000 0), .record (.zoneBegin 1100 7),
             .record (.zoneEnd 100), .record (.zoneColor 1 2 3),
             .record (.frameMark 1300 0), .record (.zoneBegin 200 8),
             .record (.zoneEnd 100), .record (.frameMark 1600 0)] := by
  rfl
